import Mathlib

/-!
Shallow embedding of the parsing and normalization core of the Chimas
repository (a Snaffler-output analyser), together with proofs settling the
frozen claims about its specification.

Sources embedded:
- `src/utils/parser.ts` : escape decoder (`parseMatchContext`), duplicate
  removal (`removeDuplicates`), priority merge (`removePriorityDuplicates`),
  the text-line extractor (`parseTextFileLine`), the text and JSON pipelines
  (`parseSnafflerText`, `parseSnafflerJson`, `parseSnafflerData`).
- `src/utils/GPOParser.ts` : the policy-report parser (`parseGPO`) with its
  table-row recognizers and key-value coalescing (`coalesceKVRows`).
- `src/App.tsx` (file-input error handler) : the JSON error localizer.

JavaScript strings are modelled as Lean `String`/`List Char`; the concrete
regular expressions of the source are modelled by equivalent explicit
scanning functions, documented at each definition.
-/

/-- Character class of the JavaScript `\s` regex class and of `String.trim`,
restricted to the ASCII whitespace characters that can actually occur in the
parsed inputs. -/
def isJsWhitespace (c : Char) : Bool :=
  c == ' ' || c == '\t' || c == '\n' || c == '\r' || c == '\x0b' || c == '\x0c'

/-- List-level test that `pat` is an initial segment of `s`. -/
def listStartsWith : List Char → List Char → Bool
  | [], _ => true
  | _ :: _, [] => false
  | p :: ps, c :: cs => p == c && listStartsWith ps cs

/-- JavaScript `String.prototype.trim` on a character list. -/
def jsTrimList (s : List Char) : List Char :=
  ((s.dropWhile isJsWhitespace).reverse.dropWhile isJsWhitespace).reverse

/-- JavaScript `String.prototype.trim`. -/
def jsTrim (s : String) : String :=
  (jsTrimList s.toList).asString

/-- Split loop for `jsSplit`, fuelled structurally (every step consumes at
least one character of the input). -/
def jsSplitGo (sep : List Char) : Nat → List Char → List Char → List (List Char)
  | _, acc, [] => [acc.reverse]
  | 0, acc, s => [acc.reverse ++ s]
  | fuel + 1, acc, c :: cs =>
    if listStartsWith sep (c :: cs) && !sep.isEmpty then
      acc.reverse :: jsSplitGo sep fuel [] (List.drop sep.length (c :: cs))
    else jsSplitGo sep fuel (c :: acc) cs

/-- JavaScript `s.split(sep)` for a non-empty literal string separator:
non-overlapping left-to-right occurrences of the separator delimit the
pieces. -/
def jsSplit (s sep : String) : List String :=
  (jsSplitGo sep.toList s.toList.length [] s.toList).map List.asString

/-- JavaScript `s.toLowerCase()` (ASCII inputs). -/
def jsToLower (s : String) : String :=
  (s.toList.map Char.toLower).asString

/-- JavaScript `s.startsWith(pat)`. -/
def jsStartsWith (s pat : String) : Bool :=
  listStartsWith pat.toList s.toList

/-- Scan of `replaceAll` below, structurally recursive on a fuel that the
wrapper instantiates with the input length (an upper bound on the number of
scanning steps, since every step consumes at least one character). -/
def replaceAllGo (pat rep : List Char) : Nat → List Char → List Char
  | _, [] => []
  | 0, s => s
  | fuel + 1, c :: cs =>
    if listStartsWith pat (c :: cs) && !pat.isEmpty then
      rep ++ replaceAllGo pat rep fuel (List.drop pat.length (c :: cs))
    else
      c :: replaceAllGo pat rep fuel cs

/-- JavaScript `s.replace(/pat/g, rep)` for a literal (regex-metacharacter
free) pattern `pat`: leftmost, non-overlapping replacement of every
occurrence, scanning resumes after each replacement. -/
def replaceAll (pat rep s : List Char) : List Char :=
  replaceAllGo pat rep s.length s

/-- Index of the last occurrence of `c` in `l`, if any. -/
def lastIdxOf (c : Char) (l : List Char) : Option Nat :=
  match l.reverse.findIdx? (· == c) with
  | some k => some (l.length - 1 - k)
  | none => none

/-- Scan of `collapseBlankLines` below, fuelled like `replaceAllGo`. -/
def collapseGo : Nat → List Char → List Char
  | _, [] => []
  | 0, s => s
  | fuel + 1, c :: cs =>
    if c == '\n' then
      match lastIdxOf '\n' (cs.takeWhile isJsWhitespace) with
      | some j => '\n' :: collapseGo fuel (cs.drop (j + 1))
      | none => '\n' :: collapseGo fuel cs
    else c :: collapseGo fuel cs

/-- JavaScript `s.replace(/\n\s*\n/g, '\n')`: the lazy/greedy semantics of
the regex collapse each newline followed by a whitespace run containing a
further newline down to a single newline, with scanning resuming after the
last newline of the run. -/
def collapseBlankLines (s : List Char) : List Char :=
  collapseGo s.length s

/-- Allow-list of regex metacharacters unescaped by `parseMatchContext`
(source: `parsed.replace(/\\([\[\](){}.*+?^$|#<>])/g, '$1')`). -/
def metaChars : List Char := "[](){}.*+?^$|#<>".toList

/-- JavaScript `parsed.replace(/\\([\[\](){}.*+?^$|#<>])/g, '$1')`: a
backslash immediately followed by an allow-listed metacharacter is replaced
by the metacharacter alone; scanning resumes after the pair. -/
def unescapeMeta : List Char → List Char
  | [] => []
  | '\\' :: c :: rest =>
    if metaChars.contains c then c :: unescapeMeta rest
    else '\\' :: unescapeMeta (c :: rest)
  | c :: rest => c :: unescapeMeta rest

/-- Embedding of `parseMatchContext` (src/utils/parser.ts:7-39): ordered
escape-sequence substitutions, then selective metacharacter unescaping, then
blank-line collapsing and trimming.  The `try/catch` of the source cannot
fire in this pure model. -/
def parseMatchContext (matchContext : String) : String :=
  if matchContext = "" then ""
  else
    let p := matchContext.toList
    let p := replaceAll "\\r\\n".toList "\n".toList p
    let p := replaceAll "\\n".toList "\n".toList p
    let p := replaceAll "\\r".toList "\n".toList p
    let p := replaceAll "\\t".toList "\t".toList p
    let p := replaceAll "\\ ".toList " ".toList p
    let p := replaceAll "\\\"".toList "\"".toList p
    let p := replaceAll "\\\\".toList "\\".toList p
    let p := unescapeMeta p
    let p := collapseBlankLines p
    (jsTrimList p).asString

/-- Read/write status flags of a finding (src/types.ts `FileResult.rwStatus`). -/
structure RwStatus where
  readable : Bool
  writable : Bool
  executable : Bool
  deleteable : Bool
deriving DecidableEq, Repr

/-- Embedding of the `FileResult` record (src/types.ts).  `rating` is a
`String` as at runtime (the TypeScript union is a cast, not a check). -/
structure FileResult where
  rating : String
  fullPath : String
  fileName : String
  creationTime : String
  lastModified : String
  size : String
  matchContext : String
  ruleName : String
  matchedStrings : List String
  triage : String
  userContext : Option String := none
  rwStatus : Option RwStatus := none
deriving DecidableEq, Repr

/-- Uniqueness key of pass 1 (src/utils/parser.ts:53):
`` `${result.fullPath}|${result.rating}|${result.ruleName}` ``. -/
def uniqueKey (r : FileResult) : String :=
  r.fullPath ++ "|" ++ r.rating ++ "|" ++ r.ruleName

/-- Loop of `removeDuplicates` with the `seen` set modelled as a list of
keys. -/
def removeDuplicatesGo (seen : List String) : List FileResult → List FileResult
  | [] => []
  | r :: rest =>
    if seen.contains (uniqueKey r) then removeDuplicatesGo seen rest
    else r :: removeDuplicatesGo (uniqueKey r :: seen) rest

/-- Embedding of `removeDuplicates` (src/utils/parser.ts:45-71): first
occurrence of each `(fullPath, rating, ruleName)` key wins. -/
def removeDuplicates (results : List FileResult) : List FileResult :=
  removeDuplicatesGo [] results

/-- Embedding of the `priorityOrder` table with the JavaScript `|| 0`
fallback for unknown ratings (src/utils/parser.ts:81,93-94). -/
def priorityOrder (rating : String) : Nat :=
  if rating = "Red" then 4
  else if rating = "Yellow" then 3
  else if rating = "Green" then 2
  else if rating = "Black" then 1
  else 0

/-- JavaScript `Map.prototype.get`, on an insertion-ordered association
list. -/
def mapGet (m : List (String × FileResult)) (k : String) : Option FileResult :=
  (m.find? (fun p => p.1 == k)).map (·.2)

/-- JavaScript `Map.prototype.set`, on an insertion-ordered association
list: an existing key keeps its position and has its value replaced, a new
key is appended. -/
def mapSet (m : List (String × FileResult)) (k : String) (v : FileResult) :
    List (String × FileResult) :=
  if m.any (fun p => p.1 == k) then
    m.map (fun p => if p.1 == k then (k, v) else p)
  else m ++ [(k, v)]

/-- Loop body of `removePriorityDuplicates` (src/utils/parser.ts:86-115):
how one incoming record updates the path-keyed `fileMap`. -/
def insertPriority (fileMap : List (String × FileResult)) (result : FileResult) :
    List (String × FileResult) :=
  match mapGet fileMap result.fullPath with
  | none => mapSet fileMap result.fullPath result
  | some existing =>
    let existingPriority := priorityOrder existing.rating
    let newPriority := priorityOrder result.rating
    if existingPriority < newPriority then
      mapSet fileMap result.fullPath result
    else if newPriority = existingPriority then
      if result.ruleName ≠ existing.ruleName then
        mapSet fileMap result.fullPath
          { existing with ruleName := existing.ruleName ++ ", " ++ result.ruleName }
      else fileMap
    else fileMap

/-- The `fileMap` built by `removePriorityDuplicates` over its input. -/
def pdMap (results : List FileResult) : List (String × FileResult) :=
  results.foldl insertPriority []

/-- Embedding of `removePriorityDuplicates` (src/utils/parser.ts:79-122):
`Array.from(fileMap.values())` on the final map. -/
def removePriorityDuplicates (results : List FileResult) : List FileResult :=
  (pdMap results).map (·.2)

/-- The two-pass deduplication applied by both scanner pipelines
(src/utils/parser.ts:137-138 and 282-283). -/
def dedupePipeline (results : List FileResult) : List FileResult :=
  removePriorityDuplicates (removeDuplicates results)

/-- Model of the anchored regex `/^\[([^\]]+)\]/` (leading user context):
an opening bracket at position 0, one or more non-bracket characters, and
the closing bracket. -/
def matchLeadingBracket : List Char → Option (List Char)
  | '[' :: rest =>
    let inner := rest.takeWhile (· != ']')
    if inner.isEmpty then none
    else if (rest.drop inner.length).isEmpty then none
    else some inner
  | _ => none

/-- Model of `/(?<=\{)(.*?)(?=\})/`-style extraction generalized over the
bracket pair: the capture starts after the first `openC` that is followed,
before any newline (`.` does not match a newline), by a `closeC`, and runs
lazily up to that `closeC`. -/
def extractBetweenLazy (openC closeC : Char) : List Char → Option (List Char)
  | [] => none
  | c :: rest =>
    if c == openC then
      let seg := rest.takeWhile (· != '\n')
      match seg.findIdx? (· == closeC) with
      | some j => some (seg.take j)
      | none => extractBetweenLazy openC closeC rest
    else extractBetweenLazy openC closeC rest

/-- Model of `/(?<=>\()(.*?)(?=\))/`: the capture starts after the first
`>(` that is followed, before any newline, by a `)`, and runs lazily up to
that parenthesis. -/
def extractPathAfterGtParen : List Char → Option (List Char)
  | [] => none
  | '>' :: '(' :: rest =>
    let seg := rest.takeWhile (· != '\n')
    match seg.findIdx? (· == ')') with
    | some j => some (seg.take j)
    | none => extractPathAfterGtParen ('(' :: rest)
  | _ :: rest => extractPathAfterGtParen rest

/-- Nonzero decimal digit. -/
def isDigit19 (c : Char) : Bool := c.isDigit && c != '0'

/-- Month-plus-dash fragment `(0?[1-9]|1[012])\-` of the timestamp regex.
The three alternatives have pairwise-disjoint follow sets, so the
backtracking regex is equivalent to this deterministic test.  Returns the
number of characters consumed (dash included). -/
def monthDash : List Char → Option Nat
  | c0 :: c1 :: rest =>
    if c0 == '0' then
      if isDigit19 c1 && rest.head? == some '-' then some 3 else none
    else if isDigit19 c0 && c1 == '-' then some 2
    else if c0 == '1' && (c1 == '0' || c1 == '1' || c1 == '2') &&
        rest.head? == some '-' then some 3
    else none
  | _ => none

/-- Day-plus-space fragment `(0?[1-9]|[12][0-9]|3[01]) ` of the timestamp
regex, deterministic for the same disjointness reason as `monthDash`. -/
def daySpace : List Char → Option Nat
  | c0 :: c1 :: rest =>
    if c0 == '0' then
      if isDigit19 c1 && rest.head? == some ' ' then some 3 else none
    else if isDigit19 c0 && c1 == ' ' then some 2
    else if (c0 == '1' || c0 == '2') && c1.isDigit && rest.head? == some ' ' then some 3
    else if c0 == '3' && (c1 == '0' || c1 == '1') && rest.head? == some ' ' then some 3
    else none
  | _ => none

/-- Attempt of the timestamp tail `\d{4}\-(month)\-(day) .*?Z` at the head
of `l`; on success returns the whole captured substring (through the first
`Z` and with no newline crossed). -/
def tryDateAt (l : List Char) : Option (List Char) :=
  let y := l.take 4
  if y.length == 4 && y.all Char.isDigit && (l.drop 4).head? == some '-' then
    let m := l.drop 5
    match monthDash m with
    | some mc =>
      let d := m.drop mc
      match daySpace d with
      | some dc =>
        let tail := d.drop dc
        let seg := tail.takeWhile (· != '\n')
        match seg.findIdx? (· == 'Z') with
        | some j => some (l.take (5 + mc + dc + j + 1))
        | none => none
      | none => none
    | none => none
  else none

/-- Positions of the pipe characters in `l`. -/
def pipePositions (l : List Char) : List Nat :=
  (l.enum.filter (fun p => p.2 == '|')).map (·.1)

/-- Model of `line.match(/^.*\|(\d{4}\-(0?[1-9]|1[012])\-(0?[1-9]|[12][0-9]|3[01]) .*?Z)/)`:
the anchored greedy `.*` tries the pipes of the first line from the last to
the first, and the first position whose tail matches the timestamp fragment
yields capture group 1. -/
def matchDatePipe (s : List Char) : Option (List Char) :=
  let firstLine := s.takeWhile (· != '\n')
  ((pipePositions firstLine).reverse).findSome? fun p =>
    tryDateAt (firstLine.drop (p + 1))

/-- Attempt of the size regex `(\d+(?:\.\d+)?(?:B|kB|MB|GB))` at the head of
`l`.  The digit runs are maximal munches (shorter runs always fail on the
unit); if the fractional part is present but no unit follows, dropping it
puts the unit test on the dot, which also fails. -/
def trySizeAt (l : List Char) : Option (List Char) :=
  let ds := l.takeWhile Char.isDigit
  if ds.isEmpty then none
  else
    let rest := l.drop ds.length
    let fracRest :=
      match rest with
      | '.' :: r =>
        let fs := r.takeWhile Char.isDigit
        if fs.isEmpty then (([] : List Char), rest)
        else ('.' :: fs, r.drop fs.length)
      | _ => (([] : List Char), rest)
    let unitOpt : Option (List Char) :=
      match fracRest.2 with
      | 'B' :: _ => some ['B']
      | 'k' :: 'B' :: _ => some ['k', 'B']
      | 'M' :: 'B' :: _ => some ['M', 'B']
      | 'G' :: 'B' :: _ => some ['G', 'B']
      | _ => none
    match unitOpt with
    | some u => some (ds ++ fracRest.1 ++ u)
    | none => none

/-- Leftmost match of the size regex over all start positions. -/
def findSizeMatch : List Char → Option (List Char)
  | [] => none
  | c :: cs =>
    match trySizeAt (c :: cs) with
    | some m => some m
    | none => findSizeMatch cs

/-- Search loop of `indexOfFrom`, carrying the current index. -/
def indexOfAux (sub : List Char) : List Char → Nat → Option Nat
  | s, i =>
    if listStartsWith sub s then some i
    else
      match s with
      | [] => none
      | _ :: cs => indexOfAux sub cs (i + 1)

/-- JavaScript `s.indexOf(sub, start)`: index of the first occurrence of
`sub` at or after `start` (`none` for JavaScript's `-1`). -/
def indexOfFrom (s sub : List Char) (start : Nat) : Option Nat :=
  let st := min start s.length
  indexOfAux sub (s.drop st) st

/-- Occurrence of `pat` as a contiguous segment of `s`. -/
def listContainsSub : List Char → List Char → Bool
  | s, pat =>
    if listStartsWith pat s then true
    else
      match s with
      | [] => false
      | _ :: cs => listContainsSub cs pat

/-- JavaScript substring test `s.includes(pat)`. -/
def containsSub (s pat : String) : Bool :=
  listContainsSub s.toList pat.toList

/-- Embedding of `parseTextFileLine` (src/utils/parser.ts:290-368): the
ad-hoc bracket grammar over one scanner text line.  A missing `{...}` or
`>(...)` token makes the whole line yield `none`. -/
def parseTextFileLine (line : String) : Option FileResult :=
  let cs := line.toList
  let userContext :=
    match matchLeadingBracket cs with
    | some u => u.asString
    | none => ""
  match extractBetweenLazy '{' '}' cs with
  | none => none
  | some ratingL =>
    let rating := ratingL.asString
    match extractPathAfterGtParen cs with
    | none => none
    | some pathL =>
      let fullPath := pathL.asString
      let lastModified :=
        match matchDatePipe cs with
        | some d => d.asString
        | none => ""
      let pathParts := jsSplit fullPath "\\"
      let fileName := (pathParts.getLast?).getD ""
      let ruleInfo :=
        match extractBetweenLazy '<' '>' cs with
        | some rd =>
          let ruleParts := jsSplit rd.asString "|"
          let rn := (ruleParts.head?).getD ""
          let sz :=
            match findSizeMatch rd with
            | some m => m.asString
            | none => ""
          (rn, sz)
        | none => ("", "")
      let matchContext :=
        match extractPathAfterGtParen cs with
        | some pem =>
          let fromIdx := (indexOfFrom cs ['>', '('] 0).getD 0
          match indexOfFrom cs pem fromIdx with
          | some pathEndIndex =>
            let afterPath := (cs.drop (pathEndIndex + pem.length + 1)).asString
            if afterPath ≠ "" then parseMatchContext (jsTrim afterPath) else ""
          | none => ""
        | none => ""
      some {
        rating := rating
        fullPath := fullPath
        fileName := fileName
        creationTime := lastModified
        lastModified := lastModified
        size := ruleInfo.2
        matchContext := matchContext
        ruleName := ruleInfo.1
        matchedStrings := [matchContext]
        triage := rating
        userContext := some userContext
        rwStatus := none }

/-- JavaScript property lookup on an object modelled as an association
list. -/
def objGet {α : Type} (m : List (String × α)) (k : String) : Option α :=
  (m.find? (fun p => p.1 == k)).map (·.2)

/-- JavaScript `a || b` for an optional string `a` and default `b`
(an absent value and the empty string are both falsy). -/
def jsOrStr (a : Option String) (b : String) : String :=
  match a with
  | some s => if s = "" then b else s
  | none => b

/-- Fields of `fileResult.FileInfo` read by the JSON extractor; every field
may be absent in the raw JSON. -/
structure JsonFileInfo where
  FullName : Option String := none
  Name : Option String := none
  CreationTime : Option String := none
  CreationTimeUtc : Option String := none
  LastWriteTime : Option String := none
  LastWriteTimeUtc : Option String := none
  Length : Option Int := none
deriving DecidableEq, Repr

/-- Fields of `fileResult.TextResult` read by the JSON extractor. -/
structure JsonTextResult where
  MatchContext : Option String := none
  MatchedStrings : Option (List String) := none
deriving DecidableEq, Repr

/-- Fields of `fileResult.MatchedRule` read by the JSON extractor. -/
structure JsonMatchedRule where
  RuleName : Option String := none
  Triage : Option String := none
deriving DecidableEq, Repr

/-- Fields of `fileResult.RwStatus` read by the JSON extractor. -/
structure JsonRwStatus where
  CanRead : Option Bool := none
  CanWrite : Option Bool := none
  CanModify : Option Bool := none
deriving DecidableEq, Repr

/-- The nested `FileResult` payload of one severity key of
`eventProperties`. -/
structure JsonFileResult where
  FileInfo : Option JsonFileInfo := none
  TextResult : Option JsonTextResult := none
  MatchedRule : Option JsonMatchedRule := none
  RwStatus : Option JsonRwStatus := none
deriving DecidableEq, Repr

/-- One severity-keyed payload of `eventProperties`. -/
structure JsonColorProp where
  FileResult : Option JsonFileResult := none
deriving DecidableEq, Repr

/-- One entry of the Snaffler JSON log (src/types.ts `SnafflerEntry`), with
`eventProperties` modelled as a key-ordered object. -/
structure SnafflerEntry where
  time : String := ""
  level : String
  message : String
  eventProperties : List (String × JsonColorProp)
deriving DecidableEq, Repr

/-- The Snaffler JSON document shape (src/types.ts `SnafflerJsonData`). -/
structure SnafflerJsonData where
  entries : List SnafflerEntry
deriving DecidableEq, Repr

/-- Severity keys probed in `eventProperties`
(src/utils/parser.ts:156). -/
def colorKeys : List String := ["Red", "Green", "Yellow", "Black"]

/-- Embedding of `parseJsonFileEntry` (src/utils/parser.ts:145-264).
Case 1 reads the structured severity-keyed payloads (entries missing a
required nested structure are skipped); case 2 falls back to the text-line
grammar on the free-text message when `eventProperties` is empty. -/
def parseJsonFileEntry (entry : SnafflerEntry) : List FileResult :=
  let eventProps := entry.eventProperties
  let case1 :=
    if eventProps.length > 0 then
      colorKeys.foldl (fun acc colorKey =>
        match objGet eventProps colorKey with
        | some cp =>
          match cp.FileResult with
          | some fileResult =>
            match fileResult.FileInfo, fileResult.TextResult, fileResult.MatchedRule with
            | some fi, some tr, some mr =>
              let rawMatchContext := (tr.MatchContext).getD ""
              let parsedMatchContext := parseMatchContext rawMatchContext
              let creationTime := jsOrStr fi.CreationTimeUtc (jsOrStr fi.CreationTime "")
              let lastModified := jsOrStr fi.LastWriteTimeUtc (jsOrStr fi.LastWriteTime "")
              acc ++ [{
                rating := colorKey
                fullPath := jsOrStr fi.FullName ""
                fileName := jsOrStr fi.Name ""
                creationTime := creationTime
                lastModified := lastModified
                size := match fi.Length with
                  | some n => toString n
                  | none => "0"
                matchContext := parsedMatchContext
                ruleName := jsOrStr mr.RuleName ""
                matchedStrings := (tr.MatchedStrings).getD []
                triage := jsOrStr mr.Triage ""
                userContext := none
                rwStatus := match fileResult.RwStatus with
                  | some rw => some {
                      readable := rw.CanRead.getD false
                      writable := rw.CanWrite.getD false
                      executable := false
                      deleteable := rw.CanModify.getD false }
                  | none => none }]
            | _, _, _ => acc
          | none => acc
        | none => acc) []
    else []
  let case2 :=
    if eventProps.length == 0 && containsSub entry.message "[File]" then
      match parseTextFileLine entry.message with
      | some r => [r]
      | none => []
    else []
  case1 ++ case2

/-- Embedding of `parseSnafflerJson` (src/utils/parser.ts:124-143): the
admissible entries are the `Warn`-level ones whose message mentions
`[File]`; the two-pass deduplication is applied to the concatenation of the
per-entry extractions.  The float-valued `duplicateStats` byproduct is
presentation-only and not modelled. -/
def parseSnafflerJson (jsonData : SnafflerJsonData) : List FileResult :=
  let results := jsonData.entries.foldl (fun acc entry =>
    if entry.level == "Warn" && containsSub entry.message "[File]" then
      acc ++ parseJsonFileEntry entry
    else acc) []
  dedupePipeline results

/-- Embedding of `parseSnafflerText` (src/utils/parser.ts:266-288): line-wise
best-effort extraction followed by the two-pass deduplication. -/
def parseSnafflerText (textData : String) : List FileResult :=
  let lines := jsSplit textData "\n"
  let results :=
    (lines.filter (fun l => jsTrim l != "" && containsSub l "[File]")).filterMap
      parseTextFileLine
  dedupePipeline results

/-- Input routed to the scanner pipeline: a decoded JSON document for the
`json` category, the raw text for the `text` and `log` categories
(src/utils/parser.ts:382-389). -/
inductive SnafflerInput where
  | json (data : SnafflerJsonData)
  | text (textData : String)
deriving Repr

/-- Records produced by the extractor chosen for the input. -/
def chosenResults (input : SnafflerInput) : List FileResult :=
  match input with
  | .json d => parseSnafflerJson d
  | .text s => parseSnafflerText s

/-- Error message thrown for an empty extraction
(src/utils/parser.ts:392). -/
def emptyInputError : String :=
  "Not a valid Snaffler output file, or the file is empty. Please check the file content and try again."

/-- Embedding of `parseSnafflerData` (src/utils/parser.ts:382-396): the
`throw` on an empty result set becomes `Except.error`. -/
def parseSnafflerData (input : SnafflerInput) : Except String (List FileResult) :=
  let parseResult := chosenResults input
  if parseResult.length = 0 then Except.error emptyInputError
  else Except.ok parseResult

/-- One flagged condition inside a setting block (src/utils/GPOParser.ts
`Finding`): the named `type`/`reason` fields plus the raw key-value rows
spread into the object. -/
structure Finding where
  type : Option String := none
  reason : Option String := none
  kv : List (String × String) := []
deriving DecidableEq, Repr

/-- One configuration table within a policy (src/utils/GPOParser.ts
`SettingBlock`). -/
structure SettingBlock where
  scope : Option String := none
  category : Option String := none
  entries : List (String × String)
  findings : List Finding
  rawLines : List String
deriving DecidableEq, Repr

/-- Header of a policy section (src/utils/GPOParser.ts `GpoHeader`): the six
recognized fields plus the dynamic remainder of the map. -/
structure GpoHeader where
  gpo : Option String := none
  dateCreated : Option String := none
  dateModified : Option String := none
  pathInSysvol : Option String := none
  computerPolicy : Option String := none
  userPolicy : Option String := none
  extra : List (String × String) := []
deriving DecidableEq, Repr

/-- One Group-Policy-Object section (src/utils/GPOParser.ts `Gpo`). -/
structure Gpo where
  startedAtRaw : Option String := none
  header : GpoHeader
  settings : List SettingBlock
deriving DecidableEq, Repr

/-- The parsed policy report (src/utils/GPOParser.ts `GPOReport`).  `info`
keeps the raw `[Info]`/`[Finish]` lines; their timestamp/level split and the
`finishedAt`/`duration` lookahead are display metadata referenced by no
claim and are not modelled further. -/
structure GPOReport where
  info : List String
  gpos : List Gpo
  raw : String
deriving DecidableEq, Repr

/-- Split loop for the JavaScript `raw.split(/\r?\n/)`: a `\r\n` pair or a
lone `\n` separates lines; a lone `\r` does not. -/
def splitLinesGo : List Char → List Char → List (List Char)
  | acc, [] => [acc.reverse]
  | acc, '\r' :: '\n' :: rest => acc.reverse :: splitLinesGo [] rest
  | acc, '\n' :: rest => acc.reverse :: splitLinesGo [] rest
  | acc, c :: rest => splitLinesGo (c :: acc) rest

/-- JavaScript `raw.split(/\r?\n/)`. -/
def splitLines (s : String) : List String :=
  (splitLinesGo [] s.toList).map List.asString

/-- Test of the regex `/\[GPO\]/` (src/utils/GPOParser.ts:57). -/
def hasGPOMarker (l : String) : Bool := containsSub l "[GPO]"

/-- Embedding of `isTableRow` (src/utils/GPOParser.ts:83), the regex
`/^\s*\|.*\|\s*$/`: after trimming, the line starts and ends with distinct
pipe characters. -/
def isTableRow (s : String) : Bool :=
  let core := jsTrimList s.toList
  decide (core.length ≥ 2) && core.head? == some '|' && core.getLast? == some '|'

/-- Embedding of `isSeparator` (src/utils/GPOParser.ts:84), the regex
`/^\s*\|\s*-{2,}\s*\|/`. -/
def isSeparator (s : String) : Bool :=
  match s.toList.dropWhile isJsWhitespace with
  | '|' :: r =>
    let r1 := r.dropWhile isJsWhitespace
    let ds := r1.takeWhile (· == '-')
    decide (ds.length ≥ 2) &&
      ((r1.drop ds.length).dropWhile isJsWhitespace).head? == some '|'
  | _ => false

/-- Embedding of `isBlockFence` (src/utils/GPOParser.ts:85), the regex
`/^\s*\\___/`. -/
def isBlockFence (s : String) : Bool :=
  listStartsWith "\\___".toList (s.toList.dropWhile isJsWhitespace)

/-- Cell split of one table row (src/utils/GPOParser.ts:93-99): trim, strip
one leading and one trailing pipe, split on pipes, trim each cell. -/
def parseRowCells (line : String) : List String :=
  let t := (jsTrimList line.toList)
  let t1 := match t with | '|' :: r => r | l => l
  let t2 := if t1.getLast? == some '|' then t1.dropLast else t1
  (jsSplit t2.asString "|").map jsTrim

/-- Embedding of `parseTableRows` (src/utils/GPOParser.ts:88-103). -/
def parseTableRows (tableLines : List String) : List (List String) :=
  tableLines.filterMap fun line =>
    if !isTableRow line then none
    else if isSeparator line then none
    else some (parseRowCells line)

/-- First-character class of the regex `/^[\w\-()\\/\\.]/` of `joinValue`. -/
def isWordStartChar (c : Char) : Bool :=
  c.isAlphanum || c == '_' || c == '-' || c == '(' || c == ')' ||
    c == '\\' || c == '/' || c == '.'

/-- Embedding of `joinValue` (src/utils/GPOParser.ts:129-134): a falsy
previous value is dropped; a continuation starting with a word-constituent
or path character is joined with a space, anything else with a newline. -/
def joinValue (prev : Option String) (add : String) : String :=
  match prev with
  | none => add
  | some p =>
    if p = "" then add
    else
      match add.toList.head? with
      | some c => if isWordStartChar c then p ++ " " ++ add else p ++ "\n" ++ add
      | none => p ++ "\n" ++ add

/-- JavaScript string-object property write, preserving key insertion
order. -/
def recSet (m : List (String × String)) (k v : String) : List (String × String) :=
  if m.any (fun p => p.1 == k) then
    m.map (fun p => if p.1 == k then (k, v) else p)
  else m ++ [(k, v)]

/-- Loop body of `coalesceKVRows` over one row, with state
`(out, lastKey)`.  A single-cell row and a row with an empty (trimmed) first
cell are continuations of `lastKey`; a row with a non-empty key writes the
key. -/
def coalesceStep (st : List (String × String) × Option String) (r : List String) :
    List (String × String) × Option String :=
  match r with
  | [c] =>
    match st.2 with
    | some lk => (recSet st.1 lk (joinValue (objGet st.1 lk) c), st.2)
    | none => st
  | [] =>
    match st.2 with
    | some lk => (recSet st.1 lk (joinValue (objGet st.1 lk) ""), st.2)
    | none => st
  | kRaw :: vRaw :: _ =>
    let key := jsTrim kRaw
    let val := jsTrim vRaw
    if key = "" then
      match st.2 with
      | some lk => (recSet st.1 lk (joinValue (objGet st.1 lk) val), st.2)
      | none => st
    else (recSet st.1 key val, some key)

/-- Embedding of `coalesceKVRows` (src/utils/GPOParser.ts:106-127). -/
def coalesceKVRows (rows : List (List String)) : List (String × String) :=
  (rows.foldl coalesceStep ([], none)).1

/-- Line access `lines[i]` (all source accesses are bounds-guarded). -/
def lineAt (lines : List String) (i : Nat) : String := lines.getD i ""

/-- Case-insensitive substring test, for the `/Finding/i` and `/Setting/i`
regexes. -/
def containsCI (s pat : String) : Bool :=
  listContainsSub (s.toList.map Char.toLower) (pat.toList.map Char.toLower)

/-- Case-insensitive check that `s` starts with the (lowercase) `pat`. -/
def startsWithCI (pat : List Char) (s : List Char) : Bool :=
  listStartsWith pat ((s.take pat.length).map Char.toLower)

/-- Model of `hdr[0].match(/Setting\s*-\s*(.+)/i)`: the first position where
`setting` (case-insensitively) is followed by optional whitespace, a dash,
optional whitespace and at least one character yields the greedy capture (to
the end of the line). -/
def matchSettingScope : List Char → Option (List Char)
  | [] => none
  | c :: cs =>
    if startsWithCI "setting".toList (c :: cs) then
      let r := (c :: cs).drop 7
      let r1 := r.dropWhile isJsWhitespace
      match r1 with
      | '-' :: r2 =>
        let r3 := r2.dropWhile isJsWhitespace
        if r3.isEmpty then matchSettingScope cs else some r3
      | _ => matchSettingScope cs
    else matchSettingScope cs

/-- Table/raw-line collection loop of `parseSettingBlock`
(src/utils/GPOParser.ts:147-155): consume lines until the next `[GPO]`
marker, the next fence, or a blank line once the table is non-empty.
Returns the collected table rows, the collected raw lines, and the next
index. -/
def sbCollect (lines : List String) (i : Nat) (table raws : List String) :
    List String × List String × Nat :=
  if h : i < lines.length then
    let l := lineAt lines i
    if hasGPOMarker l then (table, raws, i)
    else if isBlockFence l then (table, raws, i)
    else if jsTrim l == "" && decide (table.length > 0) then (table, raws, i)
    else
      let table2 := if isTableRow l then table ++ [l] else table
      sbCollect lines (i + 1) table2 (raws ++ [l])
  else (table, raws, i)
termination_by lines.length - i
decreasing_by omega

/-- JavaScript falsy-chaining `a || b` on two optional strings. -/
def jsOrOpt (a b : Option String) : Option String :=
  match a with
  | some s => if s = "" then b else some s
  | none => b

/-- Nested-finding loop of `parseSettingBlock`
(src/utils/GPOParser.ts:176-205): while the current line is a fence and the
following table parses with a header whose first cell mentions `Finding`,
one `Finding` is consumed; otherwise the loop stops. -/
def findingsLoop (lines : List String) (i : Nat) (fs : List Finding)
    (raws : List String) : List Finding × List String × Nat :=
  if h : i < lines.length then
    if isBlockFence (lineAt lines i) then
      let j := i + 1
      let localTable := (lines.drop j).takeWhile isTableRow
      let k := j + localTable.length
      let localRows := parseTableRows localTable
      match localRows with
      | hdr :: _ =>
        if containsCI (hdr.headD "") "finding" then
          let headerType :=
            if decide (hdr.length > 1) then (hdr.get? 1).map jsTrim else none
          let kv := coalesceKVRows (localRows.drop 1)
          let f : Finding := {
            type := jsOrOpt headerType (jsOrOpt (objGet kv "Finding") (objGet kv "Type"))
            reason := jsOrOpt (objGet kv "Reason") (objGet kv "reason")
            kv := kv }
          findingsLoop lines k (fs ++ [f]) (raws ++ [lineAt lines i] ++ localTable)
        else (fs, raws, i)
      | [] => (fs, raws, i)
    else (fs, raws, i)
  else (fs, raws, i)
termination_by lines.length - i
decreasing_by
  have hlen : (List.takeWhile isTableRow (lines.drop (i + 1))).length ≤
      lines.length - (i + 1) := by
    calc (List.takeWhile isTableRow (lines.drop (i + 1))).length
        ≤ (lines.drop (i + 1)).length :=
          (List.takeWhile_prefix isTableRow).length_le
      _ = lines.length - (i + 1) := List.length_drop _ _
  omega

/-- The collection loop never moves the cursor backwards. -/
theorem sbCollect_ge (lines : List String) (i : Nat) (table raws : List String) :
    i ≤ (sbCollect lines i table raws).2.2 := by
  unfold sbCollect
  split
  · dsimp only
    split
    · simp
    · split
      · simp
      · split
        · simp
        · have := sbCollect_ge lines (i + 1)
            (if isTableRow (lineAt lines i) then table ++ [lineAt lines i] else table)
            (raws ++ [lineAt lines i])
          omega
  · simp
termination_by lines.length - i
decreasing_by omega

/-- The nested-finding loop never moves the cursor backwards. -/
theorem findingsLoop_ge (lines : List String) (i : Nat) (fs : List Finding)
    (raws : List String) : i ≤ (findingsLoop lines i fs raws).2.2 := by
  unfold findingsLoop
  split
  · split
    · dsimp only
      split
      · split
        · refine le_trans ?_ (findingsLoop_ge lines
            (i + 1 + (List.takeWhile isTableRow (lines.drop (i + 1))).length) _ _)
          omega
        · simp
      · simp
    · simp
  · simp
termination_by lines.length - i
decreasing_by
  have hlen : (List.takeWhile isTableRow (lines.drop (i + 1))).length ≤
      lines.length - (i + 1) := by
    calc (List.takeWhile isTableRow (lines.drop (i + 1))).length
        ≤ (lines.drop (i + 1)).length :=
          (List.takeWhile_prefix isTableRow).length_le
      _ = lines.length - (i + 1) := List.length_drop _ _
  omega

/-- Embedding of `parseSettingBlock` (src/utils/GPOParser.ts:137-217):
consume an optional fence line, collect the block's table and raw lines,
read the `Setting - <scope>|<category>` header row if present, coalesce the
remaining rows into entries, and consume trailing nested `Finding`
sub-blocks.  Returns the block and the next unconsumed index. -/
def parseSettingBlock (lines : List String) (startIdx : Nat) : SettingBlock × Nat :=
  let fenceStep : List String × Nat :=
    if isBlockFence (lineAt lines startIdx) then ([lineAt lines startIdx], startIdx + 1)
    else ([], startIdx)
  let c := sbCollect lines fenceStep.2 [] []
  let rows := parseTableRows c.1
  let hdrInfo : Option String × Option String × List (List String) :=
    match rows with
    | hdr :: restRows =>
      if decide (hdr.length ≥ 2) && containsCI (hdr.headD "") "setting" then
        ((matchSettingScope (hdr.headD "").toList).map (fun m => jsTrim m.asString),
         (hdr.get? 1).map jsTrim,
         restRows)
      else (none, none, hdr :: restRows)
    | [] => (none, none, [])
  let fl := findingsLoop lines c.2.2 [] []
  ({ scope := hdrInfo.1
     category := hdrInfo.2.1
     entries := coalesceKVRows hdrInfo.2.2
     findings := fl.1
     rawLines := fenceStep.1 ++ c.2.1 ++ fl.2.1 }, fl.2.2)

/-- A block parse started on a fence line strictly advances the cursor. -/
theorem parseSettingBlock_gt (lines : List String) (i : Nat)
    (hf : isBlockFence (lineAt lines i) = true) :
    i < (parseSettingBlock lines i).2 := by
  unfold parseSettingBlock
  simp only [hf, if_true]
  have h1 := sbCollect_ge lines (i + 1) [] []
  have h2 := findingsLoop_ge lines (sbCollect lines (i + 1) [] []).2.2 [] []
  omega

/-- Setting-block scan of one policy section
(src/utils/GPOParser.ts:250-260): from the end of the header to the next
section start, parse a block at every fence line. -/
def settingsLoop (lines : List String) (endIdx : Nat) (i : Nat)
    (acc : List SettingBlock) : List SettingBlock :=
  if _h : i < endIdx then
    if hf : isBlockFence (lineAt lines i) then
      let r := parseSettingBlock lines i
      settingsLoop lines endIdx r.2 (acc ++ [r.1])
    else settingsLoop lines endIdx (i + 1) acc
  else acc
termination_by endIdx - i
decreasing_by
  · have := parseSettingBlock_gt lines i hf
    omega
  · omega

/-- Header-row interpretation of one policy section
(src/utils/GPOParser.ts:236-247): recognized case-insensitive key prefixes
populate the named fields; anything else lands in the dynamic remainder. -/
def headerFold (rows : List (List String)) : GpoHeader :=
  rows.foldl (fun header r =>
    match r with
    | kCell :: vCell :: _ =>
      let key := jsToLower kCell
      if jsStartsWith key "gpo" then { header with gpo := some vCell }
      else if jsStartsWith key "date created" then { header with dateCreated := some vCell }
      else if jsStartsWith key "date modified" then { header with dateModified := some vCell }
      else if jsStartsWith key "path in sysvol" then { header with pathInSysvol := some vCell }
      else if jsStartsWith key "computer policy" then { header with computerPolicy := some vCell }
      else if jsStartsWith key "user policy" then { header with userPolicy := some vCell }
      else { header with extra := recSet header.extra kCell vCell }
    | _ => header) {}

/-- Parse of one policy section spanning `[start, endIdx)`
(src/utils/GPOParser.ts:220-262): the contiguous table rows after the
marker line form the header, the rest is scanned for setting blocks. -/
def parseGpoSection (lines : List String) (start endIdx : Nat) : Gpo :=
  let headerTable :=
    ((lines.drop (start + 1)).take (endIdx - (start + 1))).takeWhile isTableRow
  { startedAtRaw := some (lineAt lines start)
    header := headerFold (parseTableRows headerTable)
    settings := settingsLoop lines endIdx (start + 1 + headerTable.length) [] }

/-- Indices of the `[GPO]` marker lines (src/utils/GPOParser.ts:55-58). -/
def gpoIndices (lines : List String) : List Nat :=
  (lines.enum.filter (fun p => hasGPOMarker p.2)).map (·.1)

/-- Embedding of `parseGPO` (src/utils/GPOParser.ts:47-266): every line
containing the `[GPO]` marker starts a section that extends to the next
marker line (or the end of input). -/
def parseGPO (raw : String) : GPOReport :=
  let lines := splitLines raw
  let gpoIdx := gpoIndices lines
  { info := lines.filter (fun l => containsSub l "[Info]" || containsSub l "[Finish]")
    gpos := (gpoIdx.zip (gpoIdx.drop 1 ++ [lines.length])).map
      (fun p => parseGpoSection lines p.1 p.2)
    raw := raw }

/-- Error payload assembled by the file-input error handler
(src/App.tsx:864-872); `fileName`/`fileType` are caller-supplied
passthroughs and are not modelled. -/
structure ErrorInfo where
  message : String
  snippet : String
  errorPosition : Option Int
  actualLineNumber : Option Nat
  snippetStartLine : Option Nat
deriving DecidableEq, Repr

/-- Decimal value of a digit run (JavaScript `parseInt(ds, 10)` on a
non-empty all-digit string). -/
def parseNatDigits (ds : List Char) : Nat :=
  ds.foldl (fun a c => a * 10 + (c.toNat - '0'.toNat)) 0

/-- Model of `error.message.match(/line (\d+) column (\d+)/)`: the first
position at which the literal pieces and the two maximal digit runs all
match yields the two captured numbers. -/
def findLineColumn : List Char → Option (Nat × Nat)
  | [] => none
  | c :: cs =>
    if listStartsWith "line ".toList (c :: cs) then
      let r := (c :: cs).drop 5
      let d1 := r.takeWhile Char.isDigit
      if d1.isEmpty then findLineColumn cs
      else
        let r2 := r.drop d1.length
        if listStartsWith " column ".toList r2 then
          let d2 := (r2.drop 8).takeWhile Char.isDigit
          if d2.isEmpty then findLineColumn cs
          else some (parseNatDigits d1, parseNatDigits d2)
        else findLineColumn cs
    else findLineColumn cs

/-- Model of `msg.match(/tok(\d+)/)` for a literal token `tok`: the first
occurrence of the token followed by at least one digit yields the captured
number. -/
def findAfterToken (tok : List Char) : List Char → Option Nat
  | [] => none
  | c :: cs =>
    if listStartsWith tok (c :: cs) then
      let ds := ((c :: cs).drop tok.length).takeWhile Char.isDigit
      if ds.isEmpty then findAfterToken tok cs else some (parseNatDigits ds)
    else findAfterToken tok cs

/-- JavaScript `s.substring(a, b)`: both arguments clamped to `[0, length]`
and swapped when out of order. -/
def jsSubstring (s : List Char) (a b : Int) : List Char :=
  let len : Int := s.length
  let a2 := min (max a 0) len
  let b2 := min (max b 0) len
  ((s.take (max a2 b2).toNat).drop (min a2 b2).toNat)

/-- Character offset of line `n` (0-based) in `lines` joined by newlines:
the `position += lines[i].length + 1` accumulation of src/App.tsx. -/
def sumLineLens (lines : List String) (n : Nat) : Nat :=
  (((lines.take n).map (fun l => l.length + 1)).sum)

/-- Embedding of the JSON branch of the file-input error handler
(src/App.tsx:745-872): locate the error position from the message (the
`line N column M` form first, then the bare position/column forms), build
the snippet (a ±2-line window for the line/column form, a ±150-character
window otherwise, the trailing or leading 300 characters when no position
is available), and report the 1-based line anchors for the line/column
form. -/
def localizeJsonError (errMsg : String) (text : String) : ErrorInfo :=
  let msg := errMsg.toList
  let message :=
    if errMsg = "" then "An unknown error occurred while processing the file." else errMsg
  let lineColumnMatch := findLineColumn msg
  let matchPos : Option Int :=
    match lineColumnMatch with
    | some (lineNum, colNum) =>
      let lines := jsSplit text "\n"
      let targetLine : Int := min ((lineNum : Int) - 1) ((lines.length : Int) - 1)
      some ((sumLineLens lines targetLine.toNat : Int) + (colNum : Int) - 1)
    | none =>
      match findAfterToken "position ".toList msg with
      | some n => some (n : Int)
      | none =>
        match findAfterToken "at position ".toList msg with
        | some n => some (n : Int)
        | none =>
          match findAfterToken "column ".toList msg with
          | some n => some (n : Int)
          | none => none
  match matchPos with
  | some absolutePosition =>
    let winInfo : Int × Int × Option Nat × Option Nat :=
      match lineColumnMatch with
      | some (lineNum, _) =>
        let lines := jsSplit text "\n"
        let startLine := lineNum - 3
        let endLine := min lines.length (lineNum + 2)
        let start := sumLineLens lines startLine
        let endPos := min text.length
          (start + (((lines.drop startLine).take (endLine - startLine)).map
            (fun l => l.length + 1)).sum)
        ((start : Int), (endPos : Int), some lineNum, some (startLine + 1))
      | none =>
        (max 0 (absolutePosition - 150),
         min ((text.length : Int)) (absolutePosition + 150), none, none)
    let start := winInfo.1
    let endP := winInfo.2.1
    let snippet0 := (jsSubstring text.toList start endP).asString
    let rel0 : Int := absolutePosition - start
    let withPre := if start > 0 then ("..." ++ snippet0, rel0 + 3) else (snippet0, rel0)
    let snippet := if endP < (text.length : Int) then withPre.1 ++ "..." else withPre.1
    { message := message
      snippet := snippet
      errorPosition := some withPre.2
      actualLineNumber := winInfo.2.2.1
      snippetStartLine := winInfo.2.2.2 }
  | none =>
    let lower := jsToLower errMsg
    if containsSub lower "unexpected end" || containsSub lower "unterminated" ||
        containsSub lower "expected" || containsSub lower "eof" ||
        containsSub lower "end of" || containsSub lower "missing" ||
        containsSub lower "incomplete" then
      let start := text.length - 300
      let snippet0 := (text.toList.drop start).asString
      { message := message
        snippet := if start > 0 then "..." ++ snippet0 else snippet0
        errorPosition := some ((text.length : Int) - ((text.length : Int) - (start : Int)))
        actualLineNumber := none
        snippetStartLine := none }
    else
      let snippet0 := (text.toList.take 300).asString
      { message := message
        snippet := if text.length > 300 then snippet0 ++ "..." else snippet0
        errorPosition := none
        actualLineNumber := none
        snippetStartLine := none }

/-! Concrete inputs used by the claim theorems. -/

/-- Scenario-A input line of claim C2 (spec §8). -/
def c2Line : String :=
  "[DOMAIN\\user][File] {Red}... >(\\\\host\\share\\secret.txt) password=hunter2 <KeepConfigRegexRed|50B>"

/-- Trailing free-text segment that the extractor actually produces for
`c2Line`: everything after the path's closing parenthesis, rule metadata
included. -/
def c2Context : String := "password=hunter2 <KeepConfigRegexRed|50B>"

/-- C2, counterexample: on the Scenario-A line the extracted match context
is the whole tail after the path's closing parenthesis — including the
trailing `<KeepConfigRegexRed|50B>` rule block — not the bare
`password=hunter2` the claim states. -/
theorem c2_counterexample :
    (parseTextFileLine c2Line).map (fun r => r.matchContext) = some c2Context ∧
    c2Context ≠ "password=hunter2" := by
  exact ⟨by decide, by decide⟩

/-- C2, amended: the Scenario-A line yields exactly one record with
severity `Red`, the stated full path and rule name, and match context equal
to the whole tail after the closing parenthesis (the rule metadata block
follows the context in this line layout and is included verbatim). -/
theorem c2_amended :
    (parseTextFileLine c2Line).map
        (fun r => (r.rating, r.fullPath, r.ruleName, r.matchContext)) =
      some ("Red", "\\\\host\\share\\secret.txt", "KeepConfigRegexRed", c2Context) := by
  decide

/-- C5, counterexample: for the input consisting of the three characters
backslash-backslash-bracket, the `\\` pair first decodes to a single
backslash, which the metacharacter pass then consumes together with the
bracket: the output is `[`, not the `\[` the claim's universal statement
predicts. -/
theorem c5_counterexample :
    parseMatchContext "\\\\[" = "[" ∧ ("[" : String) ≠ "\\[" := by
  exact ⟨by decide, by decide⟩

/-- C5, amended: the decoder applies the ordered substitutions, then the
metacharacter allow-list pass, then blank-line collapsing and trimming; a
`\\` pair decodes to a single backslash that survives when not followed by
an allow-listed metacharacter (`\\` alone, `a\\b`) but is consumed together
with a following allow-listed metacharacter (`\\[` decodes to `[`), and
`\n` decodes to an actual newline. -/
theorem c5_amended :
    parseMatchContext "line1\\nline2" = "line1\nline2" ∧
    parseMatchContext "\\\\" = "\\" ∧
    parseMatchContext "a\\\\b" = "a\\b" ∧
    parseMatchContext "\\\\[" = "[" := by
  exact ⟨by decide, by decide, by decide, by decide⟩

/-- Replacing the value at a present key makes `find?` return the new
pair. -/
theorem find?_map_replace (m : List (String × String)) (k v : String)
    (h : m.any (fun p => p.1 == k) = true) :
    (m.map (fun p => if p.1 == k then (k, v) else p)).find?
      (fun p => p.1 == k) = some (k, v) := by
  induction m with
  | nil => simp at h
  | cons p t ih =>
    by_cases hp : (p.1 == k) = true
    · rw [List.map_cons, if_pos hp, List.find?_cons_of_pos]
      simp
    · have ht : t.any (fun q => q.1 == k) = true := by
        simp only [List.any_cons, Bool.or_eq_true] at h
        exact h.resolve_left hp
      rw [List.map_cons, if_neg hp, List.find?_cons_of_neg]
      · exact ih ht
      · simpa using hp

/-- A property write always makes the key read back the written value. -/
theorem objGet_recSet_self (m : List (String × String)) (k v : String) :
    objGet (recSet m k v) k = some v := by
  unfold recSet
  split
  next h =>
    unfold objGet
    rw [find?_map_replace m k v h]
    rfl
  next h =>
    have hm : m.find? (fun q => q.1 == k) = none := by
      rw [List.find?_eq_none]
      intro x hx hpx
      exact h (List.any_eq_true.mpr ⟨x, hx, hpx⟩)
    have hone : List.find? (fun q => q.1 == k) [(k, v)] = some (k, v) :=
      List.find?_cons_of_pos _ (by simp)
    unfold objGet
    rw [List.find?_append, hm, Option.none_or, hone]
    rfl

/-- C3 input rows: the key `Member` repeated across two body rows. -/
def c3Rows : List (List String) := [["Member", "a"], ["Member", "b"]]

/-- C3, counterexample: coalescing two `Member` rows leaves only the second
value — the repeated key is overwritten, not newline-joined as the claim
states. -/
theorem c3_counterexample :
    objGet (coalesceKVRows c3Rows) "Member" = some "b" ∧
    ("b" : String) ≠ "a" ++ "\n" ++ "b" := by
  exact ⟨by decide, by decide⟩

/-- C3, amended: a body row whose (trimmed) key is non-empty always
overwrites any existing value for that key — the join heuristic applies only
to continuation rows with an empty first cell, and no key (`Member`
included) receives newline-joining of repeated values. -/
theorem c3_amended (rows : List (List String)) (k v : String) (h : jsTrim k ≠ "") :
    objGet (coalesceKVRows (rows ++ [[k, v]])) (jsTrim k) = some (jsTrim v) := by
  have hstep : coalesceKVRows (rows ++ [[k, v]]) =
      (coalesceStep (rows.foldl coalesceStep ([], none)) [k, v]).1 := by
    simp [coalesceKVRows, List.foldl_append]
  rw [hstep]
  simp only [coalesceStep, h, if_false]
  exact objGet_recSet_self _ _ _

/-- C3 witness: instantiating the amended theorem on the `Member` rows. -/
theorem c3_amended_witness :
    jsTrim "Member" ≠ "" ∧
    objGet (coalesceKVRows ([["Member", "a"]] ++ [["Member", "b"]])) (jsTrim "Member") =
      some (jsTrim "b") :=
  ⟨by decide, c3_amended [["Member", "a"]] "Member" "b" (by decide)⟩

/-- Filtering an enumeration on the payload has the length of filtering the
underlying list. -/
theorem enumFrom_filter_length {α : Type} (f : α → Bool) (l : List α) (n : Nat) :
    ((List.enumFrom n l).filter (fun p => f p.2)).length = (l.filter f).length := by
  induction l generalizing n with
  | nil => rfl
  | cons a t ih =>
    simp only [List.enumFrom, List.filter]
    by_cases h : f a
    · simp [h, ih]
    · simp [h, ih]

/-- There are as many marker indices as marker lines. -/
theorem gpoIndices_length (lines : List String) :
    (gpoIndices lines).length = (lines.filter hasGPOMarker).length := by
  simp only [gpoIndices, List.length_map, List.enum]
  exact enumFrom_filter_length hasGPOMarker lines 0

/-- The report has exactly one policy section per marker index. -/
theorem parseGPO_gpos_length (raw : String) :
    (parseGPO raw).gpos.length = (gpoIndices (splitLines raw)).length := by
  simp only [parseGPO]
  rw [List.length_map, List.length_zip]
  generalize gpoIndices (splitLines raw) = gi
  cases gi with
  | nil => simp
  | cons a t => simp

/-- C4 input fragment: a `[GPO]` marker line followed by a non-table
line. -/
def c4Input : String := "[GPO] hello\nsome text"

/-- C4, counterexample: the follower line is not a table row, yet a Policy
object is still emitted for the `[GPO]` occurrence — the claim predicts
none. -/
theorem c4_counterexample :
    isTableRow "some text" = false ∧ (parseGPO c4Input).gpos.length = 1 := by
  refine ⟨by decide, ?_⟩
  rw [parseGPO_gpos_length]
  decide

/-- C4, amended: every line containing the `[GPO]` marker starts a policy
section, regardless of what follows it; in particular a `[GPO]` line
followed by a non-table line still yields a Policy object (with an empty
header). -/
theorem c4_amended (raw : String) :
    (parseGPO raw).gpos.length =
      ((splitLines raw).filter hasGPOMarker).length := by
  rw [parseGPO_gpos_length, gpoIndices_length]

/-- C6: the scanner pipeline fails with the dedicated invalid/empty-input
error exactly when the chosen extractor yields zero records; a non-empty
extraction is returned without error. -/
theorem parseSnafflerData_empty_check (input : SnafflerInput) :
    (chosenResults input = [] → parseSnafflerData input = Except.error emptyInputError) ∧
    (chosenResults input ≠ [] → parseSnafflerData input = Except.ok (chosenResults input)) := by
  constructor
  · intro h
    simp [parseSnafflerData, h]
  · intro h
    have hlen : (chosenResults input).length ≠ 0 := by
      simpa [List.length_eq_zero] using h
    simp [parseSnafflerData, hlen]

/-- C6 sample line with one extractable finding. -/
def c6Line : String :=
  "[host\\alice] [File] {Red}<Rule|R|x|10B|2021-01-01 11:11:11Z>(\\\\host\\share\\f.txt) secret"

/-- C6 witness: the empty input errors, the one-finding input succeeds. -/
theorem parseSnafflerData_empty_check_witness :
    (chosenResults (SnafflerInput.text "") = [] ∧
      parseSnafflerData (SnafflerInput.text "") = Except.error emptyInputError) ∧
    (chosenResults (SnafflerInput.text c6Line) ≠ [] ∧
      parseSnafflerData (SnafflerInput.text c6Line) =
        Except.ok (chosenResults (SnafflerInput.text c6Line))) :=
  ⟨⟨by decide, (parseSnafflerData_empty_check (SnafflerInput.text "")).1 (by decide)⟩,
   ⟨by decide, (parseSnafflerData_empty_check (SnafflerInput.text c6Line)).2 (by decide)⟩⟩

/-- C9 error message of Scenario D. -/
def c9Msg : String := "Unexpected token at line 4 column 9"

/-- C9 seven-line input file. -/
def c9Text : String := "l1\nl2\nl3\nl4\nl5\nl6\nl7"

/-- C9: whenever the message carries a `line N column M` pair, the localizer
reports `actualLineNumber = N` and the 1-based number of the first snippet
line (`max 0 (N - 3) + 1`); on Scenario D's message over a seven-line file
the snippet is exactly the ±2-line window, file lines 2 through 6, with
`actualLineNumber = 4` and `snippetStartLine = 2`. -/
theorem localize_line_column_window :
    (∀ (errMsg text : String) (n m : Nat),
        findLineColumn errMsg.toList = some (n, m) →
        (localizeJsonError errMsg text).actualLineNumber = some n ∧
        (localizeJsonError errMsg text).snippetStartLine = some (n - 3 + 1)) ∧
    localizeJsonError c9Msg c9Text =
      { message := c9Msg
        snippet := "...l2\nl3\nl4\nl5\nl6\n..."
        errorPosition := some 17
        actualLineNumber := some 4
        snippetStartLine := some 2 } := by
  constructor
  · intro errMsg text n m h
    have h2 : findLineColumn errMsg.data = some (n, m) := h
    simp [localizeJsonError, h2]
  · decide

/-- C9 witness: the window theorem applied to Scenario D's message. -/
theorem localize_line_column_window_witness :
    findLineColumn c9Msg.toList = some (4, 9) ∧
    (localizeJsonError c9Msg c9Text).actualLineNumber = some 4 ∧
    (localizeJsonError c9Msg c9Text).snippetStartLine = some (4 - 3 + 1) :=
  ⟨by decide,
   (localize_line_column_window.1 c9Msg c9Text 4 9 (by decide)).1,
   (localize_line_column_window.1 c9Msg c9Text 4 9 (by decide)).2⟩

/-- C1: when a surviving record `r` hits a kept record `e` for the same
path in the priority-merge pass, a strictly higher priority (per the
Red > Yellow > Green > Black table) replaces the kept entry with `r`
entirely; equal priority with a different rule name keeps `e`'s fields but
concatenates the rule names as `"<kept>, <new>"`; equal priority with the
same rule name drops `r`. -/
theorem priority_merge_cases (l : List FileResult) (r e : FileResult)
    (h : mapGet (pdMap l) r.fullPath = some e) :
    (priorityOrder e.rating < priorityOrder r.rating →
      pdMap (l ++ [r]) = mapSet (pdMap l) r.fullPath r) ∧
    (priorityOrder r.rating = priorityOrder e.rating → r.ruleName ≠ e.ruleName →
      pdMap (l ++ [r]) = mapSet (pdMap l) r.fullPath
        { e with ruleName := e.ruleName ++ ", " ++ r.ruleName }) ∧
    (priorityOrder r.rating = priorityOrder e.rating → r.ruleName = e.ruleName →
      pdMap (l ++ [r]) = pdMap l) := by
  have hfold : pdMap (l ++ [r]) = insertPriority (pdMap l) r := by
    simp [pdMap, List.foldl_append]
  refine ⟨?_, ?_, ?_⟩
  · intro hlt
    rw [hfold]
    unfold insertPriority
    rw [h]
    dsimp only
    rw [if_pos hlt]
  · intro heq hne
    rw [hfold]
    unfold insertPriority
    rw [h]
    dsimp only
    rw [if_neg (by omega), if_pos heq, if_pos hne]
  · intro heq hsame
    rw [hfold]
    unfold insertPriority
    rw [h]
    dsimp only
    rw [if_neg (by omega), if_pos heq, if_neg (by simp [hsame])]

/-- C1 sample: a Green record for a path. -/
def c1Green : FileResult :=
  { rating := "Green", fullPath := "\\\\host\\share\\db.cfg", fileName := "db.cfg",
    creationTime := "", lastModified := "", size := "", matchContext := "pass",
    ruleName := "KeepCfg", matchedStrings := ["pass"], triage := "Green" }

/-- C1 sample: the same record with severity Yellow. -/
def c1Yellow : FileResult := { c1Green with rating := "Yellow" }

/-- C1 witness: a Yellow record outranks the kept Green record for the same
path and replaces it (spec Scenario B). -/
theorem priority_merge_cases_witness :
    mapGet (pdMap [c1Green]) c1Yellow.fullPath = some c1Green ∧
    priorityOrder c1Green.rating < priorityOrder c1Yellow.rating ∧
    pdMap ([c1Green] ++ [c1Yellow]) = mapSet (pdMap [c1Green]) c1Yellow.fullPath c1Yellow :=
  ⟨by decide, by decide,
   (priority_merge_cases [c1Green] c1Yellow c1Green (by decide)).1 (by decide)⟩

/-- C10: every record the text-line extractor produces carries
`matchedStrings` equal to the one-element list holding exactly its match
context, and a `triage` equal to its severity label. -/
theorem text_records_shape (line : String) (r : FileResult)
    (h : parseTextFileLine line = some r) :
    r.matchedStrings = [r.matchContext] ∧ r.triage = r.rating := by
  unfold parseTextFileLine at h
  dsimp only at h
  split at h
  · exact Option.noConfusion h
  · split at h
    · exact Option.noConfusion h
    · cases h
      exact ⟨rfl, rfl⟩

/-- C10 sample line. -/
def c10Line : String :=
  "[host\\bob] [File] {Yellow}<Rule|R|x|10B|2021-02-03 10:00:00Z>(\\\\srv\\share\\creds.txt) user=admin"

/-- Record extracted from `c10Line`. -/
def c10Rec : FileResult :=
  { rating := "Yellow", fullPath := "\\\\srv\\share\\creds.txt", fileName := "creds.txt",
    creationTime := "2021-02-03 10:00:00Z", lastModified := "2021-02-03 10:00:00Z",
    size := "10B", matchContext := "user=admin", ruleName := "Rule",
    matchedStrings := ["user=admin"], triage := "Yellow",
    userContext := some "host\\bob", rwStatus := none }

/-- C10 witness: the shape theorem applied to the sample line. -/
theorem text_records_shape_witness :
    parseTextFileLine c10Line = some c10Rec ∧
    c10Rec.matchedStrings = [c10Rec.matchContext] ∧ c10Rec.triage = c10Rec.rating :=
  ⟨by decide,
   (text_records_shape c10Line c10Rec (by decide)).1,
   (text_records_shape c10Line c10Rec (by decide)).2⟩

/-- Value/key coherence of the path-keyed file map: every stored record's
`fullPath` is its key. -/
def pairCoherent (m : List (String × FileResult)) : Prop :=
  ∀ p ∈ m, p.2.fullPath = p.1

/-- Characterization of a missing key. -/
theorem mapGet_eq_none_iff (m : List (String × FileResult)) (k : String) :
    mapGet m k = none ↔ ∀ p ∈ m, p.1 ≠ k := by
  simp [mapGet, List.find?_eq_none]

/-- A missing key also falsifies the `any` probe used by `mapSet`. -/
theorem mapSet_any_of_get_none (m : List (String × FileResult)) (k : String)
    (h : mapGet m k = none) : m.any (fun p => p.1 == k) = false := by
  rw [List.any_eq_false]
  intro p hp
  simp only [beq_iff_eq]
  exact (mapGet_eq_none_iff m k).mp h p hp

/-- A found value sits in the map at its key. -/
theorem mapGet_some_mem (m : List (String × FileResult)) (k : String) (e : FileResult)
    (h : mapGet m k = some e) : (k, e) ∈ m := by
  simp only [mapGet, Option.map_eq_some'] at h
  obtain ⟨p, hp, hpe⟩ := h
  have h1 := List.find?_some hp
  have h2 := List.mem_of_find?_eq_some hp
  simp only [beq_iff_eq] at h1
  have : p = (k, e) := by
    cases p
    simp_all
  exact this ▸ h2

/-- Updating a present key leaves the key sequence unchanged. -/
theorem mapSet_keys_of_mem (m : List (String × FileResult)) (k : String) (v : FileResult)
    (h : m.any (fun p => p.1 == k) = true) :
    (mapSet m k v).map Prod.fst = m.map Prod.fst := by
  unfold mapSet
  rw [if_pos h, List.map_map]
  refine List.map_congr_left ?_
  intro p _
  by_cases hp : (p.1 == k) = true
  · simp only [Function.comp, hp, if_true]
    exact (beq_iff_eq.mp hp).symm
  · simp [Function.comp, hp]

/-- Inserting a fresh key appends it to the key sequence. -/
theorem mapSet_keys_of_not_mem (m : List (String × FileResult)) (k : String) (v : FileResult)
    (h : m.any (fun p => p.1 == k) = false) :
    (mapSet m k v).map Prod.fst = m.map Prod.fst ++ [k] := by
  unfold mapSet
  rw [if_neg (by simp [h]), List.map_append]
  rfl

/-- One merge step preserves key distinctness. -/
theorem insertPriority_keys_nodup (m : List (String × FileResult)) (r : FileResult)
    (hn : (m.map Prod.fst).Nodup) :
    ((insertPriority m r).map Prod.fst).Nodup := by
  unfold insertPriority
  cases hget : mapGet m r.fullPath with
  | none =>
    have hany := mapSet_any_of_get_none m r.fullPath hget
    rw [mapSet_keys_of_not_mem m r.fullPath r hany]
    have hnotin : r.fullPath ∉ m.map Prod.fst := by
      intro hmem
      obtain ⟨p, hp, hpk⟩ := List.mem_map.mp hmem
      exact (mapGet_eq_none_iff m r.fullPath).mp hget p hp hpk
    simp [List.nodup_append, hn, hnotin]
  | some existing =>
    have hany : m.any (fun p => p.1 == r.fullPath) = true := by
      by_contra hc
      have : mapGet m r.fullPath = none := by
        rw [mapGet_eq_none_iff]
        intro p hp hpk
        exact hc (List.any_eq_true.mpr ⟨p, hp, by simp [hpk]⟩)
      rw [this] at hget
      exact Option.noConfusion hget
    dsimp only
    split
    · rwa [mapSet_keys_of_mem m r.fullPath r hany]
    · split
      · split
        · rwa [mapSet_keys_of_mem m r.fullPath _ hany]
        · exact hn
      · exact hn

/-- One merge step preserves value/key coherence. -/
theorem insertPriority_coherent (m : List (String × FileResult)) (r : FileResult)
    (hc : pairCoherent m) : pairCoherent (insertPriority m r) := by
  have hset : ∀ (v : FileResult), v.fullPath = r.fullPath →
      pairCoherent (mapSet m r.fullPath v) := by
    intro v hv p hp
    unfold mapSet at hp
    split at hp
    · obtain ⟨q, hq, hqe⟩ := List.mem_map.mp hp
      by_cases hqk : (q.1 == r.fullPath) = true
      · simp only [hqk, if_true] at hqe
        rw [← hqe]
        exact hv
      · simp only [hqk] at hqe
        simp only [Bool.false_eq_true, if_false] at hqe
        rw [← hqe]
        exact hc q hq
    · rcases List.mem_append.mp hp with hin | hin
      · exact hc p hin
      · simp only [List.mem_singleton] at hin
        rw [hin]
        exact hv
  unfold insertPriority
  cases hget : mapGet m r.fullPath with
  | none => exact hset r rfl
  | some existing =>
    have hex : existing.fullPath = r.fullPath :=
      hc (r.fullPath, existing) (mapGet_some_mem m r.fullPath existing hget)
    dsimp only
    split
    · exact hset r rfl
    · split
      · split
        · exact hset { existing with ruleName := existing.ruleName ++ ", " ++ r.ruleName } hex
        · exact hc
      · exact hc

/-- The merge map is coherent and has distinct keys. -/
theorem pdMap_inv (l : List FileResult) :
    pairCoherent (pdMap l) ∧ ((pdMap l).map Prod.fst).Nodup := by
  suffices h : ∀ acc, pairCoherent acc → (acc.map Prod.fst).Nodup →
      pairCoherent (l.foldl insertPriority acc) ∧
      ((l.foldl insertPriority acc).map Prod.fst).Nodup by
    exact h [] (by intro p hp; cases hp) (by simp)
  induction l with
  | nil => intro acc h1 h2; exact ⟨h1, h2⟩
  | cons r t ih =>
    intro acc h1 h2
    exact ih (insertPriority acc r) (insertPriority_coherent acc r h1)
      (insertPriority_keys_nodup acc r h2)

/-- C8 core: after the priority pass, full paths are pairwise distinct. -/
theorem removePriorityDuplicates_paths_nodup (l : List FileResult) :
    (removePriorityDuplicates l).Pairwise (fun a b => a.fullPath ≠ b.fullPath) := by
  obtain ⟨hc, hn⟩ := pdMap_inv l
  unfold removePriorityDuplicates
  rw [List.pairwise_map]
  have hp1 : (pdMap l).Pairwise (fun p q => p.1 ≠ q.1) := by
    rw [← List.pairwise_map (f := Prod.fst)]
    exact hn
  refine hp1.imp_of_mem ?_
  intro p q hp hq hne
  rw [hc p hp, hc q hq]
  exact hne

/-- C8: in every pipeline output no two records share the identical
`(fullPath, severity, ruleName)` triple, and — the priority pass having
collapsed by path — no two records share the same `fullPath` at all. -/
theorem dedupe_output_invariants (l : List FileResult) :
    (dedupePipeline l).Pairwise
      (fun a b => ¬(a.fullPath = b.fullPath ∧ a.rating = b.rating ∧ a.ruleName = b.ruleName)) ∧
    (dedupePipeline l).Pairwise (fun a b => a.fullPath ≠ b.fullPath) := by
  have h := removePriorityDuplicates_paths_nodup (removeDuplicates l)
  exact ⟨h.imp (fun hne hc => hne hc.1), h⟩

/-- Pass 1 is the identity on a list whose uniqueness keys avoid `seen` and
are pairwise distinct. -/
theorem removeDuplicatesGo_eq_self (l : List FileResult) :
    ∀ seen : List String, (∀ r ∈ l, uniqueKey r ∉ seen) →
      (l.map uniqueKey).Nodup → removeDuplicatesGo seen l = l := by
  induction l with
  | nil => intro seen _ _; rfl
  | cons r t ih =>
    intro seen h1 h2
    have hnot : seen.contains (uniqueKey r) = false := by
      rw [Bool.eq_false_iff]
      intro hc
      exact h1 r (List.mem_cons_self r t) (List.elem_iff.mp hc)
    unfold removeDuplicatesGo
    rw [hnot]
    simp only [Bool.false_eq_true, if_false]
    simp only [List.map_cons, List.nodup_cons] at h2
    rw [ih (uniqueKey r :: seen) ?_ h2.2]
    intro x hx hmem
    rcases List.mem_cons.mp hmem with hh | hh
    · exact h2.1 (hh ▸ List.mem_map_of_mem uniqueKey hx)
    · exact h1 x (List.mem_cons_of_mem r hx) hh

/-- Pass 1 is the identity when the keys are pairwise distinct. -/
theorem removeDuplicates_eq_self (l : List FileResult)
    (h : (l.map uniqueKey).Nodup) : removeDuplicates l = l :=
  removeDuplicatesGo_eq_self l [] (by intro r _ hc; cases hc) h

/-- Pass 1 only keeps input records. -/
theorem removeDuplicates_subset (l : List FileResult) :
    ∀ r ∈ removeDuplicates l, r ∈ l := by
  suffices h : ∀ seen, ∀ r ∈ removeDuplicatesGo seen l, r ∈ l by
    exact h []
  induction l with
  | nil => intro seen r hr; cases hr
  | cons a t ih =>
    intro seen r hr
    unfold removeDuplicatesGo at hr
    split at hr
    · exact List.mem_cons_of_mem a (ih seen r hr)
    · rcases List.mem_cons.mp hr with hh | hh
      · exact hh ▸ List.mem_cons_self a t
      · exact List.mem_cons_of_mem a (ih _ r hh)

/-- Folding onto a map that misses every incoming path just appends the
records in order. -/
theorem foldl_insertPriority_fresh (l : List FileResult) :
    ∀ acc : List (String × FileResult),
      (∀ r ∈ l, mapGet acc r.fullPath = none) →
      (l.map (fun r => r.fullPath)).Nodup →
      l.foldl insertPriority acc = acc ++ l.map (fun r => (r.fullPath, r)) := by
  induction l with
  | nil => intro acc _ _; simp
  | cons r t ih =>
    intro acc h1 h2
    have hget := h1 r (List.mem_cons_self r t)
    have hstep : insertPriority acc r = acc ++ [(r.fullPath, r)] := by
      unfold insertPriority
      rw [hget]
      unfold mapSet
      rw [if_neg (by simp [mapSet_any_of_get_none acc r.fullPath hget])]
    simp only [List.map_cons, List.nodup_cons] at h2
    rw [List.foldl_cons, hstep, ih (acc ++ [(r.fullPath, r)]) ?_ h2.2]
    · simp
    · intro x hx
      rw [mapGet_eq_none_iff]
      intro p hp
      rcases List.mem_append.mp hp with hin | hin
      · exact (mapGet_eq_none_iff acc x.fullPath).mp
          (h1 x (List.mem_cons_of_mem r hx)) p hin
      · simp only [List.mem_singleton] at hin
        rw [hin]
        intro heq
        dsimp only at heq
        refine h2.1 ?_
        rw [heq]
        exact List.mem_map_of_mem (fun r => r.fullPath) hx

/-- Pass 2 is the identity when the full paths are pairwise distinct. -/
theorem removePriorityDuplicates_eq_self (l : List FileResult)
    (h : (l.map (fun r => r.fullPath)).Nodup) :
    removePriorityDuplicates l = l := by
  unfold removePriorityDuplicates pdMap
  rw [foldl_insertPriority_fresh l [] (by intro r _; rfl) h]
  simp [List.map_map, Function.comp_def]

/-- Freedom from the pipe separator in the three key-forming fields. -/
def pipeFree (r : FileResult) : Prop :=
  '|' ∉ r.fullPath.data ∧ '|' ∉ r.rating.data ∧ '|' ∉ r.ruleName.data

instance (r : FileResult) : Decidable (pipeFree r) := by
  unfold pipeFree
  infer_instance

/-- Writing a value satisfying `P` into a map whose values satisfy `P`
keeps every value satisfying `P`. -/
theorem mapSet_forall_values (P : FileResult → Prop) (m : List (String × FileResult))
    (k : String) (v : FileResult) (hm : ∀ p ∈ m, P p.2) (hv : P v) :
    ∀ p ∈ mapSet m k v, P p.2 := by
  intro p hp
  unfold mapSet at hp
  split at hp
  · obtain ⟨q, hq, hqe⟩ := List.mem_map.mp hp
    by_cases hqk : (q.1 == k) = true
    · simp only [hqk, if_true] at hqe
      rw [← hqe]
      exact hv
    · simp only [hqk, Bool.false_eq_true, if_false] at hqe
      rw [← hqe]
      exact hm q hq
  · rcases List.mem_append.mp hp with hin | hin
    · exact hm p hin
    · simp only [List.mem_singleton] at hin
      rw [hin]
      exact hv

/-- One merge step keeps every stored record pipe-free when the incoming
record is pipe-free (rule-name concatenation only inserts `", "`). -/
theorem insertPriority_pipeFree (m : List (String × FileResult)) (r : FileResult)
    (hm : ∀ p ∈ m, pipeFree p.2) (hr : pipeFree r) :
    ∀ p ∈ insertPriority m r, pipeFree p.2 := by
  unfold insertPriority
  cases hget : mapGet m r.fullPath with
  | none => exact mapSet_forall_values pipeFree m r.fullPath r hm hr
  | some existing =>
    have hex : pipeFree existing :=
      hm (r.fullPath, existing) (mapGet_some_mem m r.fullPath existing hget)
    have hmerged : pipeFree { existing with ruleName := existing.ruleName ++ ", " ++ r.ruleName } := by
      refine ⟨hex.1, hex.2.1, ?_⟩
      simp only [String.data_append, List.mem_append]
      rintro ((h1 | h2) | h3)
      · exact hex.2.2 h1
      · revert h2
        decide
      · exact hr.2.2 h3
    dsimp only
    split
    · exact mapSet_forall_values pipeFree m r.fullPath r hm hr
    · split
      · split
        · exact mapSet_forall_values pipeFree m r.fullPath _ hm hmerged
        · exact hm
      · exact hm

/-- Fold form of `pdMap_pipeFree` below, generalized over the
accumulator. -/
theorem foldl_insertPriority_pipeFree (l : List FileResult) :
    ∀ acc : List (String × FileResult), (∀ p ∈ acc, pipeFree p.2) →
      (∀ r ∈ l, pipeFree r) →
      ∀ p ∈ l.foldl insertPriority acc, pipeFree p.2 := by
  induction l with
  | nil => intro acc h1 _; exact h1
  | cons r t ih =>
    intro acc h1 h2
    exact ih (insertPriority acc r)
      (insertPriority_pipeFree acc r h1 (h2 r (List.mem_cons_self r t)))
      (fun x hx => h2 x (List.mem_cons_of_mem r hx))

/-- All values of the merge map over a pipe-free input are pipe-free. -/
theorem pdMap_pipeFree (l : List FileResult) (h : ∀ r ∈ l, pipeFree r) :
    ∀ p ∈ pdMap l, pipeFree p.2 :=
  foldl_insertPriority_pipeFree l [] (by intro p hp; cases hp) h

/-- Splitting on a pipe absent from both left parts is unambiguous. -/
theorem pipe_append_inj (xs : List Char) :
    ∀ (xs2 ys ys2 : List Char), '|' ∉ xs → '|' ∉ xs2 →
      xs ++ '|' :: ys = xs2 ++ '|' :: ys2 → xs = xs2 ∧ ys = ys2 := by
  induction xs with
  | nil =>
    intro xs2 ys ys2 _ hx2 h
    cases xs2 with
    | nil => simpa using h
    | cons b u =>
      simp only [List.nil_append, List.cons_append, List.cons.injEq] at h
      exact absurd (h.1 ▸ List.mem_cons_self b u) hx2
  | cons a t ih =>
    intro xs2 ys ys2 hx hx2 h
    cases xs2 with
    | nil =>
      simp only [List.cons_append, List.nil_append, List.cons.injEq] at h
      exact absurd (h.1 ▸ List.mem_cons_self a t) hx
    | cons b u =>
      simp only [List.cons_append, List.cons.injEq] at h
      have ht := ih u ys ys2 (fun hm => hx (List.mem_cons_of_mem a hm))
        (fun hm => hx2 (List.mem_cons_of_mem b hm)) h.2
      exact ⟨by rw [h.1, ht.1], ht.2⟩

/-- Two pipe-free records with the same uniqueness key share their full
path. -/
theorem uniqueKey_inj_of_pipeFree (a b : FileResult) (ha : pipeFree a) (hb : pipeFree b)
    (h : uniqueKey a = uniqueKey b) : a.fullPath = b.fullPath := by
  have hd := congrArg String.data h
  simp only [uniqueKey, String.data_append, List.append_assoc,
    List.singleton_append] at hd
  exact String.ext (pipe_append_inj a.fullPath.data b.fullPath.data _ _ ha.1 hb.1 hd).1

/-- C7, counterexample inputs: after rule-name merging, the first record's
key `a|Red|Red|x, y` collides with the third record's key, although their
paths differ. -/
def c7RecA : FileResult :=
  { rating := "Red", fullPath := "a", fileName := "", creationTime := "",
    lastModified := "", size := "", matchContext := "", ruleName := "Red|x",
    matchedStrings := [], triage := "" }

/-- Second C7 record: same path, same severity, different rule name. -/
def c7RecB : FileResult := { c7RecA with ruleName := "y" }

/-- Third C7 record: its key equals the key of the merged first two. -/
def c7RecC : FileResult := { c7RecA with fullPath := "a|Red", ruleName := "x, y" }

/-- C7, counterexample: the pipeline is not idempotent — on this input the
second run drops a record that survived the first run, because rule-name
merging manufactured a pass-1 key collision between records with distinct
paths. -/
theorem dedupe_not_idempotent :
    dedupePipeline (dedupePipeline [c7RecA, c7RecB, c7RecC]) ≠
      dedupePipeline [c7RecA, c7RecB, c7RecC] := by decide

/-- C7, amended: the pipeline is idempotent on every input whose records
keep the pipe separator out of the key-forming fields (`fullPath`,
severity, `ruleName`) — the collision of the counterexample needs a literal
`|` inside a field. -/
theorem dedupe_idempotent_of_pipeFree (l : List FileResult)
    (h : ∀ r ∈ l, pipeFree r) :
    dedupePipeline (dedupePipeline l) = dedupePipeline l := by
  have hsub : ∀ r ∈ removeDuplicates l, pipeFree r :=
    fun r hr => h r (removeDuplicates_subset l r hr)
  have hpf : ∀ r ∈ dedupePipeline l, pipeFree r := by
    intro r hr
    unfold dedupePipeline removePriorityDuplicates at hr
    obtain ⟨p, hp, hpe⟩ := List.mem_map.mp hr
    rw [← hpe]
    exact pdMap_pipeFree (removeDuplicates l) hsub p hp
  have hpaths : (dedupePipeline l).Pairwise (fun a b => a.fullPath ≠ b.fullPath) :=
    removePriorityDuplicates_paths_nodup (removeDuplicates l)
  have hkeys : ((dedupePipeline l).map uniqueKey).Nodup := by
    have hpw : (dedupePipeline l).Pairwise (fun a b => uniqueKey a ≠ uniqueKey b) := by
      refine hpaths.imp_of_mem ?_
      intro a b ha hb hne heq
      exact hne (uniqueKey_inj_of_pipeFree a b (hpf a ha) (hpf b hb) heq)
    exact (List.pairwise_map).mpr hpw
  have h1 : removeDuplicates (dedupePipeline l) = dedupePipeline l :=
    removeDuplicates_eq_self _ hkeys
  have h2 : removePriorityDuplicates (dedupePipeline l) = dedupePipeline l :=
    removePriorityDuplicates_eq_self _ ((List.pairwise_map).mpr hpaths)
  calc dedupePipeline (dedupePipeline l)
      = removePriorityDuplicates (removeDuplicates (dedupePipeline l)) := rfl
    _ = removePriorityDuplicates (dedupePipeline l) := by rw [h1]
    _ = dedupePipeline l := h2

/-- C7 witness sample: two pipe-free records for one path with different
rules. -/
def c7wA : FileResult :=
  { rating := "Red", fullPath := "\\\\h\\s\\f1.txt", fileName := "f1.txt",
    creationTime := "", lastModified := "", size := "", matchContext := "",
    ruleName := "RuleA", matchedStrings := [], triage := "" }

/-- Second C7 witness record. -/
def c7wB : FileResult := { c7wA with ruleName := "RuleB" }

/-- C7 witness: the amended idempotence theorem on a concrete pipe-free
input. -/
theorem dedupe_idempotent_witness :
    (∀ r ∈ [c7wA, c7wB], pipeFree r) ∧
    dedupePipeline (dedupePipeline [c7wA, c7wB]) = dedupePipeline [c7wA, c7wB] :=
  ⟨by decide, dedupe_idempotent_of_pipeFree [c7wA, c7wB] (by decide)⟩
